import Mathlib

/-!
Verification of the memory-poisoning demo pipeline (demo/ package).

Shallow embedding: Python strings are modelled as `List Char`, the detector,
policy gate, executor, memory stores and the runner stages are translated into
executable Lean functions.  Python code that can raise is modelled with
`Except`/`Option`.  The external `unicodedata` library is abstracted as a
`UnicodeModel` parameter (NFD decomposition map plus combining-mark predicate);
`asciiUM` is its restriction to ASCII text, where NFD is the identity and no
character is a combining mark.
-/

/-- Python `needle in hay` (contiguous substring test) on character lists. -/
def isSub (needle : List Char) : List Char → Bool
  | [] => needle.isPrefixOf []
  | c :: t => needle.isPrefixOf (c :: t) || isSub needle (t : List Char)

/-- Python `hay.index(needle)` / `needle in hay`: index of the first occurrence
of `needle` in `hay`, if any. -/
def findSub (needle : List Char) : List Char → Option Nat
  | [] => if needle.isPrefixOf [] then some 0 else none
  | c :: t =>
    if needle.isPrefixOf (c :: t) then some 0
    else (findSub needle t).map (· + 1)

/-- Python `str.isspace` characters (the set `str.strip()` removes). -/
def pyIsSpace (c : Char) : Bool :=
  c = ' ' || c = '\t' || c = '\n' || c = '\r' ||
  c.toNat = 0x0B || c.toNat = 0x0C ||
  (0x1C ≤ c.toNat && c.toNat ≤ 0x1F) ||
  c.toNat = 0x85 || c.toNat = 0xA0 || c.toNat = 0x1680 ||
  (0x2000 ≤ c.toNat && c.toNat ≤ 0x200A) ||
  c.toNat = 0x2028 || c.toNat = 0x2029 || c.toNat = 0x202F ||
  c.toNat = 0x205F || c.toNat = 0x3000

/-- Python `str.strip()`: remove leading and trailing whitespace. -/
def pyStrip (l : List Char) : List Char :=
  ((l.dropWhile pyIsSpace).reverse.dropWhile pyIsSpace).reverse

/-- Line-boundary characters recognised by Python `str.splitlines()`. -/
def pyIsLineBreak (c : Char) : Bool :=
  c = '\n' || c = '\r' ||
  c.toNat = 0x0B || c.toNat = 0x0C ||
  (0x1C ≤ c.toNat && c.toNat ≤ 0x1E) ||
  c.toNat = 0x85 || c.toNat = 0x2028 || c.toNat = 0x2029

/-- Recursion worker for `pySplitlines` (each step consumes at least one
character, so `fuel = l.length` always suffices). -/
def pySplitlinesAux : Nat → List Char → List (List Char)
  | _, [] => []
  | 0, _ :: _ => []
  | fuel + 1, c :: cs =>
    let line := (c :: cs).takeWhile (fun x => !pyIsLineBreak x)
    match (c :: cs).dropWhile (fun x => !pyIsLineBreak x) with
    | [] => [line]
    | '\r' :: '\n' :: r => line :: pySplitlinesAux fuel r
    | _ :: r => line :: pySplitlinesAux fuel r

/-- Python `str.splitlines()`: split at line boundaries, treating `\r\n` as a
single boundary; the empty string yields the empty list. -/
def pySplitlines (l : List Char) : List (List Char) :=
  pySplitlinesAux l.length l

/-- The poison marker (`MCPServerSim.poison_token`). -/
def poisonTokenChars : List Char := "WRITE_PWNED_FILE".data

/-- Abstraction of the `unicodedata` collaborator: a character-wise canonical
(NFD) decomposition and the `Mn` (combining-mark) category predicate. -/
structure UnicodeModel where
  nfd : Char → List Char
  combining : Char → Bool

/-- The `unicodedata` behaviour on ASCII text: NFD is the identity and no
ASCII character is a combining mark. -/
def asciiUM : UnicodeModel := { nfd := fun c => [c], combining := fun _ => false }

/-- `MCPServerSim._normalize_unicode`: NFD-normalize, then drop combining
marks. -/
def normalizeUnicode (um : UnicodeModel) (text : List Char) : List Char :=
  (text.flatMap um.nfd).filter (fun c => !um.combining c)

/-- The fixed lookalike substitution patterns of
`MCPServerSim._detect_homoglyphs` (Greek iota, Cyrillic І, digit 1). -/
def homoglyphPatterns : List (List Char) :=
  ["WRΙTE_PWNED_FΙLE".data, "WRІTE_PWNED_FІLE".data, "WR1TE_PWNED_F1LE".data]

/-- `MCPServerSim._detect_homoglyphs`. -/
def detectHomoglyphs (um : UnicodeModel) (text : List Char) : Bool × Option String :=
  let normalized := normalizeUnicode um text
  if isSub poisonTokenChars normalized && !(text == normalized) then
    (true, some "homoglyph")
  else if homoglyphPatterns.any (fun p => isSub p text) then
    (true, some "homoglyph")
  else
    (false, none)

/-- The base64 alphabet `[A-Za-z0-9+/]` of the scan in
`MCPServerSim._detect_base64`. -/
def isB64Char (c : Char) : Bool :=
  ('A' ≤ c && c ≤ 'Z') || ('a' ≤ c && c ≤ 'z') || ('0' ≤ c && c ≤ '9') ||
  c = '+' || c = '/'

/-- Recursion worker for `b64Runs` (each step consumes at least one
character, so `fuel = l.length` always suffices). -/
def b64RunsAux : Nat → List Char → List (List Char)
  | _, [] => []
  | 0, _ :: _ => []
  | fuel + 1, c :: cs =>
    if isB64Char c then
      let run := c :: cs.takeWhile isB64Char
      let rest := cs.dropWhile isB64Char
      if 20 ≤ run.length then
        let pads := (rest.takeWhile (fun x => x = '=')).take 2
        (run ++ pads) :: b64RunsAux fuel (rest.drop pads.length)
      else
        b64RunsAux fuel rest
    else
      b64RunsAux fuel cs

/-- `re.findall(r"[A-Za-z0-9+/]{20,}={0,2}", text)`: maximal runs of at least
20 base64-alphabet characters, each extended by up to two following `=`
characters; the scan resumes after each match. -/
def b64Runs (l : List Char) : List (List Char) :=
  b64RunsAux l.length l

/-- Value of a base64-alphabet digit. -/
def b64DigitVal (c : Char) : Option Nat :=
  if 'A' ≤ c && c ≤ 'Z' then some (c.toNat - 65)
  else if 'a' ≤ c && c ≤ 'z' then some (c.toNat - 71)
  else if '0' ≤ c && c ≤ '9' then some (c.toNat + 4)
  else if c = '+' then some 62
  else if c = '/' then some 63
  else none

/-- Decode the `=`-free part of a base64 string: full 4-digit groups give 3
bytes; a trailing group of 2 or 3 digits gives 1 or 2 bytes; a single
leftover digit is invalid. -/
def b64DecodeBody : List Char → Option (List Nat)
  | [] => some []
  | [_] => none
  | [c1, c2] => do
    let v1 ← b64DigitVal c1
    let v2 ← b64DigitVal c2
    some [v1 * 4 + v2 / 16]
  | [c1, c2, c3] => do
    let v1 ← b64DigitVal c1
    let v2 ← b64DigitVal c2
    let v3 ← b64DigitVal c3
    some [v1 * 4 + v2 / 16, (v2 % 16) * 16 + v3 / 4]
  | c1 :: c2 :: c3 :: c4 :: rest => do
    let v1 ← b64DigitVal c1
    let v2 ← b64DigitVal c2
    let v3 ← b64DigitVal c3
    let v4 ← b64DigitVal c4
    let tail ← b64DecodeBody rest
    some ([v1 * 4 + v2 / 16, (v2 % 16) * 16 + v3 / 4, (v3 % 4) * 64 + v4] ++ tail)

/-- `base64.b64decode` as called on a scanned run: alphabet characters with
optional trailing `=` padding; the (filtered) length must be a multiple of 4
and at most two `=` may appear, only at the end; otherwise `binascii.Error`
(modelled as `none`). -/
def b64decodePy (s : List Char) : Option (List Nat) :=
  let filtered := s.filter (fun c => isB64Char c || c = '=')
  if filtered.length % 4 ≠ 0 then none
  else
    let body := filtered.takeWhile (fun c => c ≠ '=')
    let pads := filtered.dropWhile (fun c => c ≠ '=')
    if pads.all (fun c => c = '=') && pads.length ≤ 2 then b64DecodeBody body
    else none

/-- Continuation byte test `0x80 ≤ b ≤ 0xBF`. -/
def isUtf8Cont (b : Nat) : Bool := 0x80 ≤ b && b ≤ 0xBF

/-- Valid range of the second byte of a 3- or 4-byte UTF-8 sequence, which
depends on the lead byte (excludes overlong forms, surrogates and values
above U+10FFFF, as the CPython decoder does). -/
def utf8SecondOk (b b2 : Nat) : Bool :=
  if b = 0xE0 then 0xA0 ≤ b2 && b2 ≤ 0xBF
  else if b = 0xED then 0x80 ≤ b2 && b2 ≤ 0x9F
  else if b = 0xF0 then 0x90 ≤ b2 && b2 ≤ 0xBF
  else if b = 0xF4 then 0x80 ≤ b2 && b2 ≤ 0x8F
  else isUtf8Cont b2

/-- `bytes.decode("utf-8", errors="ignore")`: standard incremental UTF-8
decoding, skipping ill-formed bytes. -/
def utf8DecodeIgnoreAux : Nat → List Nat → List Char
  | _, [] => []
  | 0, _ :: _ => []
  | fuel + 1, b :: bs =>
    if b < 0x80 then Char.ofNat b :: utf8DecodeIgnoreAux fuel bs
    else if b < 0xC2 then utf8DecodeIgnoreAux fuel bs
    else if b < 0xE0 then
      match bs with
      | b2 :: bs2 =>
        if isUtf8Cont b2 then
          Char.ofNat ((b - 0xC0) * 64 + (b2 - 0x80)) :: utf8DecodeIgnoreAux fuel bs2
        else utf8DecodeIgnoreAux fuel bs
      | [] => []
    else if b < 0xF0 then
      match bs with
      | b2 :: b3 :: bs3 =>
        if utf8SecondOk b b2 && isUtf8Cont b3 then
          Char.ofNat ((b - 0xE0) * 4096 + (b2 - 0x80) * 64 + (b3 - 0x80)) ::
            utf8DecodeIgnoreAux fuel bs3
        else utf8DecodeIgnoreAux fuel bs
      | _ => utf8DecodeIgnoreAux fuel bs
    else if b < 0xF5 then
      match bs with
      | b2 :: b3 :: b4 :: bs4 =>
        if utf8SecondOk b b2 && isUtf8Cont b3 && isUtf8Cont b4 then
          Char.ofNat ((b - 0xF0) * 262144 + (b2 - 0x80) * 4096 +
              (b3 - 0x80) * 64 + (b4 - 0x80)) :: utf8DecodeIgnoreAux fuel bs4
        else utf8DecodeIgnoreAux fuel bs
      | _ => utf8DecodeIgnoreAux fuel bs
    else utf8DecodeIgnoreAux fuel bs

/-- `bytes.decode("utf-8", errors="ignore")` via the worker above (each step
consumes at least one byte, so `fuel = l.length` always suffices). -/
def utf8DecodeIgnore (l : List Nat) : List Char :=
  utf8DecodeIgnoreAux l.length l

/-- The decode-and-test body of the loop in `MCPServerSim._detect_base64`:
a run counts when it decodes (base64, then UTF-8 with errors ignored) to text
containing the poison token; decode failures are swallowed by the
`try/except`. -/
def b64RunHasToken (r : List Char) : Bool :=
  match b64decodePy r with
  | some bs => isSub poisonTokenChars (utf8DecodeIgnore bs)
  | none => false

/-- `MCPServerSim._detect_base64`. -/
def detectBase64 (text : List Char) : Bool × Option String :=
  if (b64Runs text).any b64RunHasToken then (true, some "base64") else (false, none)

/-- The shell-metacharacter list of the structured-extraction heuristic. -/
def structuredMeta : List (List Char) := [" ".data, "&&".data, "|".data, ";".data]

/-- `MCPServerSim._detect_obfuscated_token`: the four checks in priority
order (plaintext, homoglyph, base64, structured extraction), short-circuiting
on the first match. -/
def detectObfuscatedToken (um : UnicodeModel) (target : List Char) :
    Bool × Option String :=
  if isSub poisonTokenChars target then (true, some "plaintext")
  else
    let hg := detectHomoglyphs um target
    if hg.fst then (true, hg.snd)
    else
      let b6 := detectBase64 target
      if b6.fst then (true, b6.snd)
      else
        let lowered := target.map Char.toLower
        if isSub "staging".data lowered && isSub "service".data lowered then
          if structuredMeta.any (fun s => isSub s target) then
            (true, some "structured_extraction")
          else (false, none)
        else (false, none)

/-- Configuration of `MCPServerSim.__init__`: artifacts directory and mode
(the constructor also fixes `allowlist = [serviceA, serviceB]` and
`poison_token = WRITE_PWNED_FILE`, modelled by `mcpAllowlist` and
`poisonTokenChars`). -/
structure MCPCfg where
  artifacts_dir : String
  mode : String

/-- `MCPServerSim.allowlist`. -/
def mcpAllowlist : List (List Char) := ["serviceA".data, "serviceB".data]

/-- `MCPServerSim._has_suspicious_substring`. -/
def hasSuspiciousSubstring (target : List Char) : Bool :=
  ["WRITE_PWNED_FILE".data, " ".data, ";".data, "&&".data, "|".data,
    [Char.ofNat 96], [Char.ofNat 36]].any (fun s => isSub s target)

/-- Result of `MCPServerSim.execute`: the returned `MCPResponse` fields plus
whether the compromise-proof artifact (`pwned.txt`) was written by
`_write_pwned`. -/
structure MCPExecResult where
  status : String
  message : String
  artifacts_written : List String
  pwnedWritten : Bool
  deriving Repr, DecidableEq

/-- `MCPServerSim.execute` on a validated `MCPPayload` (whose `action` field
is the fixed literal `run_diagnostic`); the diagnostic report is always
written, and in vulnerable mode a poisoned target additionally triggers
`_write_pwned`. -/
def mcpExecute (um : UnicodeModel) (cfg : MCPCfg) (target : List Char) :
    MCPExecResult :=
  let report := cfg.artifacts_dir ++ "/diagnostic_report.txt"
  let det := detectObfuscatedToken um target
  if cfg.mode = "vulnerable" then
    if det.fst then
      { status := "ok"
        message := "diagnostic executed (vulnerable mode, obfuscation: " ++
          (det.snd.getD "none") ++ ")"
        artifacts_written := [report, cfg.artifacts_dir ++ "/pwned.txt"]
        pwnedWritten := true }
    else
      { status := "ok"
        message := "diagnostic executed (vulnerable mode, obfuscation: " ++
          (det.snd.getD "none") ++ ")"
        artifacts_written := [report]
        pwnedWritten := false }
  else if det.fst then
    { status := "rejected"
      message := "target rejected: poison token detected via " ++
        (det.snd.getD "None")
      artifacts_written := [report]
      pwnedWritten := false }
  else if !(mcpAllowlist.contains target) || hasSuspiciousSubstring target then
    { status := "rejected"
      message := "target " ++ String.mk [Char.ofNat 39] ++ String.mk target ++
        String.mk [Char.ofNat 39] ++ " rejected by allowlist"
      artifacts_written := [report]
      pwnedWritten := false }
  else
    { status := "ok"
      message := "diagnostic executed (defended mode)"
      artifacts_written := [report]
      pwnedWritten := false }

/-- `MemoryRecord` (schemas.py), with `content` as a character list for
substring checks. -/
structure MemRec where
  id : Nat
  content : List Char
  tags : List String
  trust_level : String
  provenance : String
  risk_flags : List String
  created_at : String
  deriving Repr, DecidableEq

/-- `ContextPack` (schemas.py). -/
structure ContextPackE where
  notes : List MemRec
  effective_trust : String
  citations : List String
  deriving Repr, DecidableEq

/-- `PolicyDecision` (schemas.py). -/
structure PolicyDecisionE where
  decision : String
  reasons : List String
  enforced : Bool
  deriving Repr, DecidableEq

/-- Configuration of `PolicyGate.__init__`. -/
structure PolicyGateCfg where
  mode : String
  allowlist : List String
  deriving Repr, DecidableEq

/-- `PolicyGate(mode)`. -/
def mkPolicyGate (mode : String) : PolicyGateCfg :=
  { mode := mode, allowlist := ["serviceA", "serviceB"] }

/-- `PolicyGate._extract_target`: text after the case-insensitive marker
`target to:`, stripped, first line, stripped again.  When everything after
the marker is whitespace, `splitlines()[0]` raises `IndexError`
(modelled as `Except.error ()`). -/
def extractTarget (content : List Char) : Except Unit (List Char) :=
  let marker := "target to:".data
  let lowered := content.map Char.toLower
  match findSub marker lowered with
  | none => Except.ok []
  | some i =>
    let start := i + marker.length
    let stripped := pyStrip (content.drop start)
    match pySplitlines stripped with
    | [] => Except.error ()
    | line :: _ => Except.ok (pyStrip line)

/-- The per-note reason accumulation of the defended-mode loop in
`PolicyGate.evaluate`. -/
def policyNoteReasons (gate : PolicyGateCfg) (note : MemRec) :
    Except Unit (List String) :=
  let r1 := if "web_fixture".data.isPrefixOf note.provenance.data then
      ["provenance is web_fixture -> treat as untrusted"] else []
  let r2 := if isSub poisonTokenChars note.content then
      ["suspicious token detected in memory content"] else []
  match extractTarget note.content with
  | Except.error e => Except.error e
  | Except.ok tgt =>
    let r3 := if tgt ≠ [] && !(gate.allowlist.contains (String.mk tgt)) then
        ["target " ++ String.mk [Char.ofNat 39] ++ String.mk tgt ++
          String.mk [Char.ofNat 39] ++ " not in allowlist"] else []
    Except.ok (r1 ++ r2 ++ r3)

/-- Sequential reason accumulation over the notes of the pack (an exception
at any note propagates, discarding the run). -/
def policyCollect (gate : PolicyGateCfg) : List MemRec → Except Unit (List String)
  | [] => Except.ok []
  | n :: ns => do
    let r ← policyNoteReasons gate n
    let rest ← policyCollect gate ns
    Except.ok (r ++ rest)

/-- `PolicyGate.evaluate`. -/
def policyEvaluate (gate : PolicyGateCfg) (pack : ContextPackE) :
    Except Unit PolicyDecisionE :=
  if gate.mode = "vulnerable" then
    Except.ok { decision := "allow"
                reasons := ["policy gate disabled in vulnerable mode"]
                enforced := false }
  else do
    let rs ← policyCollect gate pack.notes
    let reasons := rs ++
      (if pack.effective_trust = "untrusted" then ["effective_trust is untrusted"]
       else [])
    Except.ok { decision := if reasons ≠ [] then "block" else "allow"
                reasons := if reasons ≠ [] then reasons else ["policy checks passed"]
                enforced := true }

/-- Arguments of a `write_note` call. -/
structure WriteInput where
  content : List Char
  tags : List String
  trust_level : String
  provenance : String
  risk_flags : List String
  created_at : String
  deriving Repr, DecidableEq

/-- `write_note` on either store, as a transition on the list of stored
records (insertion order): the new id is the record count plus one — the
SQLite store via `AUTOINCREMENT`/`lastrowid` on a fresh table, the JSONL
store via `len(records) + 1`. -/
def writeNote (st : List MemRec) (w : WriteInput) : List MemRec :=
  st ++ [{ id := st.length + 1, content := w.content, tags := w.tags,
           trust_level := w.trust_level, provenance := w.provenance,
           risk_flags := w.risk_flags, created_at := w.created_at }]

/-- A sequence of `write_note` calls against a fresh store. -/
def applyWrites (ws : List WriteInput) : List MemRec :=
  ws.foldl writeNote []

/-- Recursion worker for `likeMatch` (each step consumes a pattern or text
character, so `fuel = p.length + t.length` always suffices). -/
def likeMatchAux : Nat → List Char → List Char → Bool
  | _, [], t => t.isEmpty
  | 0, _ :: _, _ => false
  | fuel + 1, p :: ps, t =>
    if p = '%' then
      likeMatchAux fuel ps t ||
        (match t with
         | [] => false
         | _ :: ts => likeMatchAux fuel (p :: ps) ts)
    else
      match t with
      | [] => false
      | c :: ts =>
        if p = '_' then likeMatchAux fuel ps ts
        else (Char.toLower p == Char.toLower c) && likeMatchAux fuel ps ts

/-- SQLite `LIKE` (no ESCAPE): `%` matches any sequence, `_` any single
character, other characters match case-insensitively (ASCII folding). -/
def likeMatch (p t : List Char) : Bool :=
  likeMatchAux (p.length + t.length) p t

/-- `json.dumps` escape for one character (`ensure_ascii=True`). -/
def jsonEscapeChar (c : Char) : List Char :=
  let hexDig := fun (n : Nat) =>
    if n < 10 then Char.ofNat (48 + n) else Char.ofNat (87 + n)
  let uEsc := fun (n : Nat) =>
    [Char.ofNat 92, 'u', hexDig (n / 4096 % 16), hexDig (n / 256 % 16),
     hexDig (n / 16 % 16), hexDig (n % 16)]
  if c = Char.ofNat 34 then [Char.ofNat 92, Char.ofNat 34]
  else if c = Char.ofNat 92 then [Char.ofNat 92, Char.ofNat 92]
  else if c = '\n' then [Char.ofNat 92, 'n']
  else if c = '\r' then [Char.ofNat 92, 'r']
  else if c = '\t' then [Char.ofNat 92, 't']
  else if c.toNat = 8 then [Char.ofNat 92, 'b']
  else if c.toNat = 12 then [Char.ofNat 92, 'f']
  else if c.toNat < 0x20 || 0x7F ≤ c.toNat then
    if c.toNat < 0x10000 then uEsc c.toNat
    else uEsc (0xD800 + (c.toNat - 0x10000) / 1024) ++
         uEsc (0xDC00 + (c.toNat - 0x10000) % 1024)
  else [c]

/-- `json.dumps(tags)` for a list of strings (the `tags` column value the
SQLite store matches against). -/
def jsonDumpsStrList (tags : List String) : List Char :=
  '[' :: (List.intercalate ", ".data
      (tags.map (fun t =>
        Char.ofNat 34 :: (t.data.flatMap jsonEscapeChar ++ [Char.ofNat 34])))) ++ [']']

/-- `" ".join(tags)` (the tag text the JSONL store matches against). -/
def joinSpaceTags (tags : List String) : List Char :=
  List.intercalate [' '] (tags.map (fun t => t.data))

/-- `MemoryStore.query_notes` (SQLite): `WHERE content LIKE %topic% OR tags
LIKE %topic% ORDER BY id DESC LIMIT limit`; ids are assigned in insertion
order, so descending id order is the reversed insertion order. -/
def sqliteQueryNotes (table : List MemRec) (topic : List Char) (limit : Nat) :
    List MemRec :=
  if topic.isEmpty then (table.reverse).take limit
  else
    let pat := '%' :: (topic ++ ['%'])
    ((table.filter (fun r =>
        likeMatch pat r.content || likeMatch pat (jsonDumpsStrList r.tags))).reverse).take
      limit

/-- `JsonlMemoryStore.query_notes`: case-insensitive substring match of the
topic against the content or the space-joined tags, then
`list(reversed(records))[:limit]`. -/
def jsonlQueryNotes (records : List MemRec) (topic : List Char) (limit : Nat) :
    List MemRec :=
  if topic.isEmpty then (records.reverse).take limit
  else
    let lowered := topic.map Char.toLower
    ((records.filter (fun r =>
        isSub lowered (r.content.map Char.toLower) ||
        isSub lowered ((joinSpaceTags r.tags).map Char.toLower))).reverse).take limit

/-- The tag-based trust heuristic at the WriteMemory stage of `Runner.run`:
`trust_level` starts `untrusted` and is elevated to `trusted` when the tag
list contains both `runbook` and `diagnostics` (the injected trust bug). -/
def writeMemoryTrustLevel (tags : List String) : String :=
  if tags.contains "runbook" && tags.contains "diagnostics" then "trusted"
  else "untrusted"

/-- The MemoryWriterAgent step of `Runner.run`: the record handed to
`write_note`, built from the summary note, the tag list, and the fixture
basename; provenance is always `web_fixture:<basename>`, risk flags are added
when the summary contains the poison token. -/
def writeMemoryStage (summaryNote : List Char) (tags : List String)
    (fixtureBasename : String) (createdAt : String) (nextId : Nat) : MemRec :=
  { id := nextId
    content := summaryNote
    tags := tags
    trust_level := writeMemoryTrustLevel tags
    provenance := "web_fixture:" ++ fixtureBasename
    risk_flags := if isSub poisonTokenChars summaryNote then
        ["TOKEN_WRITE_PWNED_FILE"] else []
    created_at := createdAt }

/-- `ActionPlan` (schemas.py). -/
structure ActionPlanE where
  tool : String
  action : String
  target : List Char
  justification : String
  source_memory_ids : List Nat
  deriving Repr, DecidableEq

/-- Target of the deterministic fallback plan in the PlannerAgent step of
`Runner.run`. -/
def plannerFallbackTarget (summaryNote : List Char) : List Char :=
  if isSub poisonTokenChars summaryNote then "serviceA WRITE_PWNED_FILE".data
  else "serviceA".data

/-- The PlannerAgent step of `Runner.run`.  `llmResult` is the outcome of
`llm.complete(plan_prompt)` (which raises `RuntimeError` on HTTP or network
failure); that call sits outside the `try`, so a raise propagates and aborts
the run (`Except.error`).  Only the parse of the returned text
(`extract_json_block` plus pydantic validation, abstracted as `parsePlan`) is
guarded, with the deterministic fallback plan as handler; the two plan
rewrites after the `try/except` are applied in both cases. -/
def planStage (summaryNote : List Char) (noteIds : List Nat)
    (llmResult : Except String String)
    (parsePlan : String → Except String ActionPlanE) : Except String ActionPlanE :=
  match llmResult with
  | Except.error e => Except.error e
  | Except.ok raw =>
    let plan :=
      match parsePlan raw with
      | Except.ok p => p
      | Except.error _ =>
        { tool := "mcp_safe_exec", action := "run_diagnostic"
          target := plannerFallbackTarget summaryNote
          justification := "Fallback plan (LLM output invalid)."
          source_memory_ids := noteIds }
    let plan :=
      if isSub poisonTokenChars summaryNote && !(isSub poisonTokenChars plan.target)
      then { plan with target := "serviceA WRITE_PWNED_FILE".data }
      else plan
    let plan :=
      if plan.source_memory_ids.isEmpty then { plan with source_memory_ids := noteIds }
      else plan
    Except.ok plan

/-- The keyword arguments of `Runner.__init__` (cli.py also tries to pass
`mode=`/`execution_mode=`, which the constructor does not accept). -/
structure RunnerArgs where
  memory_backend : String
  fixture : String
  crew_logs : Bool
  pace_seconds : Rat
  log_detail : String

/-- The state `Runner.__init__` builds. -/
structure RunnerState where
  mode : String
  memory_backend : String
  fixture : String
  crew_logs : Bool
  pace_seconds : Rat
  log_detail : String

/-- `Runner.__init__`: no mode parameter exists; `self.mode` is the literal
`vulnerable`. -/
def RunnerInit (a : RunnerArgs) : RunnerState :=
  { mode := "vulnerable"
    memory_backend := a.memory_backend
    fixture := a.fixture
    crew_logs := a.crew_logs
    pace_seconds := max 0 a.pace_seconds
    log_detail := a.log_detail }

/-- The `PolicyGate(self.mode)` constructed in `Runner.run`. -/
def runnerPolicyGate (st : RunnerState) : PolicyGateCfg := mkPolicyGate st.mode

/-- The `MCPServerSim(artifacts_dir, self.mode)` constructed in `Runner.run`. -/
def runnerMcp (st : RunnerState) (artifactsDir : String) : MCPCfg :=
  { artifacts_dir := artifactsDir, mode := st.mode }

/-- Claim C5: the detector runs its four checks in the fixed priority order
plaintext, homoglyph, base64, structured extraction and short-circuits on the
first match; for every target containing the literal poison marker and every
unicode model, detection returns `(true, plaintext)` regardless of what the
later checks would report. -/
theorem detect_plaintext_priority (um : UnicodeModel) (target : List Char)
    (h : isSub poisonTokenChars target = true) :
    detectObfuscatedToken um target = (true, some "plaintext") := by
  simp [detectObfuscatedToken, h]

/-- Witness for `detect_plaintext_priority` at a concrete poisoned target. -/
theorem detect_plaintext_priority_witness :
    isSub poisonTokenChars "run WRITE_PWNED_FILE now".data = true ∧
    detectObfuscatedToken asciiUM "run WRITE_PWNED_FILE now".data =
      (true, some "plaintext") :=
  ⟨by decide, detect_plaintext_priority asciiUM "run WRITE_PWNED_FILE now".data
    (by decide)⟩

/-- Claim C1: `MCPServerSim.execute` writes the compromise-proof artifact if
and only if the mode is `vulnerable` and the detector flags the target; in
any non-vulnerable (defended) mode no compromise artifact is ever written,
and in vulnerable mode the response status is `ok` unconditionally. -/
theorem mcp_execute_pwned_iff (um : UnicodeModel) (mode artifactsDir : String)
    (target : List Char) :
    ((mcpExecute um ⟨artifactsDir, mode⟩ target).pwnedWritten = true ↔
      (mode = "vulnerable" ∧ (detectObfuscatedToken um target).fst = true)) ∧
    (mode ≠ "vulnerable" →
      (mcpExecute um ⟨artifactsDir, mode⟩ target).pwnedWritten = false) ∧
    (mode = "vulnerable" →
      (mcpExecute um ⟨artifactsDir, mode⟩ target).status = "ok") := by
  by_cases hm : mode = "vulnerable" <;>
    by_cases hd : (detectObfuscatedToken um target).fst = true <;>
      simp [mcpExecute, hm, hd, apply_ite MCPExecResult.pwnedWritten,
        apply_ite MCPExecResult.status]

/-- Witness for `mcp_execute_pwned_iff`: concrete vulnerable and defended
executions. -/
theorem mcp_execute_pwned_iff_witness :
    (mcpExecute asciiUM ⟨"artifacts", "vulnerable"⟩
        "run WRITE_PWNED_FILE".data).pwnedWritten = true ∧
    (mcpExecute asciiUM ⟨"artifacts", "defended"⟩
        "run WRITE_PWNED_FILE".data).pwnedWritten = false ∧
    (mcpExecute asciiUM ⟨"artifacts", "vulnerable"⟩
        "no marker here".data).status = "ok" := by
  refine ⟨?_, ?_, ?_⟩
  · exact (mcp_execute_pwned_iff asciiUM "vulnerable" "artifacts"
      "run WRITE_PWNED_FILE".data).1.mpr ⟨rfl, by decide⟩
  · exact (mcp_execute_pwned_iff asciiUM "defended" "artifacts"
      "run WRITE_PWNED_FILE".data).2.1 (by decide)
  · exact (mcp_execute_pwned_iff asciiUM "vulnerable" "artifacts"
      "no marker here".data).2.2 rfl

/-- Claim C2: at the WriteMemory stage the tag heuristic stores the record as
`trusted` exactly when the tag list contains both `runbook` and
`diagnostics`, and as `untrusted` otherwise, while the record provenance is
always the untrusted `web_fixture:<name>` origin. -/
theorem write_memory_trust_tags (tags : List String) (summary : List Char)
    (basename createdAt : String) (nextId : Nat) :
    ((writeMemoryStage summary tags basename createdAt nextId).trust_level =
        "trusted" ↔ ("runbook" ∈ tags ∧ "diagnostics" ∈ tags)) ∧
    ((writeMemoryStage summary tags basename createdAt nextId).trust_level =
        "untrusted" ↔ ¬ ("runbook" ∈ tags ∧ "diagnostics" ∈ tags)) ∧
    (writeMemoryStage summary tags basename createdAt nextId).provenance =
      "web_fixture:" ++ basename := by
  unfold writeMemoryStage writeMemoryTrustLevel
  by_cases h : "runbook" ∈ tags ∧ "diagnostics" ∈ tags
  · have hb : (tags.contains "runbook" && tags.contains "diagnostics") = true := by
      simp [List.contains, List.elem_iff, h.1, h.2]
    simp [hb, h]
  · have hb : (tags.contains "runbook" && tags.contains "diagnostics") = false := by
      rcases not_and_or.mp h with h1 | h1 <;>
        simp [List.contains, List.elem_iff, h1]
    simp [hb, h]

/-- Decidable equality of exception-modelling results, for concrete
evaluations of `policyEvaluate`. -/
instance (α β : Type) [DecidableEq α] [DecidableEq β] :
    DecidableEq (Except α β) := fun a b =>
  match a, b with
  | Except.ok x, Except.ok y =>
    if h : x = y then isTrue (by rw [h]) else isFalse (by simp [h])
  | Except.error x, Except.error y =>
    if h : x = y then isTrue (by rw [h]) else isFalse (by simp [h])
  | Except.ok _, Except.error _ => isFalse (by simp)
  | Except.error _, Except.ok _ => isFalse (by simp)

/-- Claim C3 (code defect): on a defended-mode context pack with a note whose
content is exactly `target to:` (nothing after the marker),
`PolicyGate.evaluate` raises `IndexError` from `_extract_target`
(`splitlines()[0]` on the empty string) instead of returning the
`allow`/`policy checks passed` decision the specification describes. -/
theorem policy_defended_extract_raises :
    policyEvaluate (mkPolicyGate "defended")
      { notes := [{ id := 1, content := "target to:".data, tags := ["runbook"],
                    trust_level := "trusted", provenance := "manual:ops",
                    risk_flags := [], created_at := "t0" }],
        effective_trust := "trusted", citations := [] } = Except.error () := by
  decide

/-- Claim C4 counterexample: in vulnerable mode the reason string returned by
`PolicyGate.evaluate` is `policy gate disabled in vulnerable mode`, not the
claimed `policy gate disabled`. -/
theorem policy_vulnerable_reason_cex :
    policyEvaluate (mkPolicyGate "vulnerable")
      { notes := [], effective_trust := "trusted", citations := [] } ≠
    Except.ok { decision := "allow", reasons := ["policy gate disabled"],
                enforced := false } := by
  decide

/-- Claim C4 (amended): in vulnerable mode `PolicyGate.evaluate` always
returns `allow` with `enforced = false` and the single reason
`policy gate disabled in vulnerable mode`. -/
theorem policy_vulnerable_always_allow (pack : ContextPackE) :
    policyEvaluate (mkPolicyGate "vulnerable") pack =
      Except.ok { decision := "allow",
                  reasons := ["policy gate disabled in vulnerable mode"],
                  enforced := false } := rfl

/-- Claim C7 counterexample: when `llm.complete` itself raises at the
planning stage (network failure), the exception propagates out of the stage
and the run aborts — no fallback plan is substituted. -/
theorem plan_stage_llm_raise_cex :
    planStage "note".data [1] (Except.error "Request failed: timeout")
      (fun _ => Except.error "unused") =
    Except.error "Request failed: timeout" := rfl

/-- Claim C7 (amended): when the LLM call returns but its output fails to
parse as an ActionPlan, the planning stage substitutes the deterministic
fallback plan — target `serviceA WRITE_PWNED_FILE` when the summary note
contains the marker, else `serviceA` — and the pipeline continues. -/
theorem plan_stage_parse_fallback (summary : List Char) (ids : List Nat)
    (raw e : String) (parsePlan : String → Except String ActionPlanE)
    (h : parsePlan raw = Except.error e) :
    planStage summary ids (Except.ok raw) parsePlan =
      Except.ok { tool := "mcp_safe_exec", action := "run_diagnostic",
                  target := plannerFallbackTarget summary,
                  justification := "Fallback plan (LLM output invalid)."
                  source_memory_ids := ids } := by
  unfold planStage
  dsimp only
  rw [h]
  by_cases hs : isSub poisonTokenChars summary = true
  · have ht : isSub poisonTokenChars (plannerFallbackTarget summary) = true := by
      unfold plannerFallbackTarget
      rw [hs]
      decide
    simp only [hs, ht, Bool.not_true, Bool.and_false, if_false, Bool.false_eq_true]
    split <;> rfl
  · simp only [Bool.not_eq_true] at hs
    simp only [hs, Bool.false_and, if_false, Bool.false_eq_true]
    split <;> rfl

/-- Witness for `plan_stage_parse_fallback` at a concrete failing parse. -/
theorem plan_stage_parse_fallback_witness :
    ((fun _ => Except.error "invalid JSON" :
        String → Except String ActionPlanE) "garbage" =
      Except.error "invalid JSON") ∧
    planStage "note WRITE_PWNED_FILE".data [1] (Except.ok "garbage")
      (fun _ => Except.error "invalid JSON") =
      Except.ok { tool := "mcp_safe_exec", action := "run_diagnostic",
                  target := plannerFallbackTarget "note WRITE_PWNED_FILE".data,
                  justification := "Fallback plan (LLM output invalid)."
                  source_memory_ids := [1] } :=
  ⟨rfl, plan_stage_parse_fallback "note WRITE_PWNED_FILE".data [1] "garbage"
    "invalid JSON" (fun _ => Except.error "invalid JSON") rfl⟩

/-- Claim C10: `Runner.__init__` accepts no mode argument and fixes the mode
to `vulnerable`, so the policy gate and the executor it constructs are always
in the vulnerable configuration, whatever constructor arguments are passed. -/
theorem runner_fixed_vulnerable_mode (a : RunnerArgs) (artifactsDir : String) :
    (RunnerInit a).mode = "vulnerable" ∧
    (runnerPolicyGate (RunnerInit a)).mode = "vulnerable" ∧
    (runnerMcp (RunnerInit a) artifactsDir).mode = "vulnerable" :=
  ⟨rfl, rfl, rfl⟩

/-- Ids produced by a run of `write_note` calls from an arbitrary store
state: the existing ids followed by the next consecutive integers. -/
theorem foldl_writeNote_map_id (ws : List WriteInput) (st : List MemRec) :
    (ws.foldl writeNote st).map (fun r => r.id) =
      st.map (fun r => r.id) ++ List.range' (st.length + 1) ws.length := by
  induction ws generalizing st with
  | nil => simp
  | cons w ws ih =>
    rw [List.foldl_cons, ih]
    simp [writeNote, List.range'_succ, List.append_assoc]

/-- Claim C9: starting from a fresh store, N sequential `write_note` calls
assign the strictly increasing 1-based ids `1..N` in order, and an
empty-topic query with limit k on either backend returns the k
most-recently-written notes, most recent first. -/
theorem write_ids_query_order (ws : List WriteInput) (k : Nat) :
    (applyWrites ws).map (fun r => r.id) = List.range' 1 ws.length ∧
    (sqliteQueryNotes (applyWrites ws) [] k).map (fun r => r.id) =
      ((List.range' 1 ws.length).reverse).take k ∧
    (jsonlQueryNotes (applyWrites ws) [] k).map (fun r => r.id) =
      ((List.range' 1 ws.length).reverse).take k := by
  have h1 : (applyWrites ws).map (fun r => r.id) = List.range' 1 ws.length := by
    simpa [applyWrites] using foldl_writeNote_map_id ws []
  refine ⟨h1, ?_, ?_⟩
  · show (((applyWrites ws).reverse).take k).map (fun r => r.id) = _
    rw [List.map_take, List.map_reverse, h1]
  · show (((applyWrites ws).reverse).take k).map (fun r => r.id) = _
    rw [List.map_take, List.map_reverse, h1]

/-- The length of a `takeWhile` result is bounded by the input length. -/
theorem takeWhile_length_le (p : Char → Bool) (l : List Char) :
    (l.takeWhile p).length ≤ l.length := by
  induction l with
  | nil => simp
  | cons c cs ih =>
    rw [List.takeWhile_cons]
    split <;> simp <;> omega

/-- `takeWhile` over an append whose left part satisfies the predicate
everywhere and whose right part fails at its head. -/
theorem takeWhile_all_append {p : Char → Bool} {xs ys : List Char}
    (hx : ∀ c ∈ xs, p c = true) (hy : ys.takeWhile p = []) :
    (xs ++ ys).takeWhile p = xs := by
  have hxs : xs.takeWhile p = xs := List.takeWhile_eq_self_iff.mpr hx
  rw [List.takeWhile_append, hxs, if_pos rfl, hy, List.append_nil]

/-- `dropWhile` over an append whose left part satisfies the predicate
everywhere. -/
theorem dropWhile_all_append {p : Char → Bool} {xs ys : List Char}
    (hx : ∀ c ∈ xs, p c = true) :
    (xs ++ ys).dropWhile p = ys.dropWhile p := by
  have hxs : xs.dropWhile p = [] := List.dropWhile_eq_nil_iff.mpr hx
  rw [List.dropWhile_append, hxs]
  simp

/-- `takeWhile` over an append whose left part contains a failing
character. -/
theorem takeWhile_stop_append {p : Char → Bool} {xs : List Char}
    (ys : List Char) (hx : xs.dropWhile p ≠ []) :
    (xs ++ ys).takeWhile p = xs.takeWhile p := by
  rw [List.takeWhile_append, if_neg]
  intro hlen
  apply hx
  have h2 := congrArg List.length (List.takeWhile_append_dropWhile p xs)
  rw [List.length_append, hlen] at h2
  have : (xs.dropWhile p).length = 0 := by omega
  exact List.length_eq_zero.mp this

/-- `dropWhile` over an append whose left part contains a failing
character. -/
theorem dropWhile_stop_append {p : Char → Bool} {xs : List Char}
    (ys : List Char) (hx : xs.dropWhile p ≠ []) :
    (xs ++ ys).dropWhile p = xs.dropWhile p ++ ys := by
  rw [List.dropWhile_append, if_neg]
  simpa [List.isEmpty_iff] using hx

/-- Unfolding of the scan worker at a base64 character opening a run of
length at least 20. -/
theorem b64RunsAux_cons_b64 (fuel : Nat) (c : Char) (cs : List Char)
    (hc : isB64Char c = true) (h20 : 20 ≤ (c :: cs.takeWhile isB64Char).length) :
    b64RunsAux (fuel + 1) (c :: cs) =
      ((c :: cs.takeWhile isB64Char) ++
        (((cs.dropWhile isB64Char).takeWhile (fun x => x = '=')).take 2)) ::
      b64RunsAux fuel ((cs.dropWhile isB64Char).drop
        ((((cs.dropWhile isB64Char).takeWhile (fun x => x = '=')).take 2).length)) := by
  simp only [b64RunsAux, hc, if_true]
  rw [if_pos h20]

/-- Unfolding of the scan worker at a base64 character opening a run shorter
than 20. -/
theorem b64RunsAux_cons_small (fuel : Nat) (c : Char) (cs : List Char)
    (hc : isB64Char c = true) (h20 : ¬ 20 ≤ (c :: cs.takeWhile isB64Char).length) :
    b64RunsAux (fuel + 1) (c :: cs) = b64RunsAux fuel (cs.dropWhile isB64Char) := by
  simp only [b64RunsAux, hc, if_true]
  rw [if_neg h20]

/-- Unfolding of the scan worker at a non-base64 character. -/
theorem b64RunsAux_cons_skip (fuel : Nat) (c : Char) (cs : List Char)
    (hc : isB64Char c = false) :
    b64RunsAux (fuel + 1) (c :: cs) = b64RunsAux fuel cs := by
  simp only [b64RunsAux, hc]
  simp

/-- A base64-alphabet character is not `=`. -/
theorem b64Char_ne_eq {x : Char} (hx : isB64Char x = true) : x ≠ '=' := by
  intro he
  rw [he] at hx
  exact absurd hx (by decide)

/-- The scan worker finds a standalone base64 run: if the text decomposes as
`pre ++ (body ++ pads) ++ post` with `body` a run of at least 20
base64-alphabet characters, `pads` at most two `=`, `pre` ending (if
nonempty) in a non-alphabet character and `post` starting (if nonempty) in a
character that is neither alphabet nor `=`, then `body ++ pads` is one of the
scanned runs. -/
theorem b64RunsAux_mem (fuel : Nat) :
    ∀ (pre body pads post : List Char),
    (pre ++ ((body ++ pads) ++ post)).length ≤ fuel →
    (∀ c ∈ body, isB64Char c = true) →
    20 ≤ body.length →
    (pads = [] ∨ pads = ['='] ∨ pads = ['=', '=']) →
    (pre = [] ∨ ∃ d, pre.getLast? = some d ∧ isB64Char d = false) →
    (post = [] ∨ ∃ d ds, post = d :: ds ∧ isB64Char d = false ∧ d ≠ '=') →
    (body ++ pads) ∈ b64RunsAux fuel (pre ++ ((body ++ pads) ++ post)) := by
  induction fuel with
  | zero =>
    intro pre body pads post hfuel hb hlen hp hpre hpost
    exfalso
    rw [List.length_append, List.length_append, List.length_append] at hfuel
    omega
  | succ fuel ih =>
    intro pre body pads post hfuel hb hlen hp hpre hpost
    have hbody_ne : body ≠ [] := List.ne_nil_of_length_pos (by omega)
    cases pre with
    | nil =>
      obtain ⟨b, body', hbody⟩ := List.exists_cons_of_ne_nil hbody_ne
      subst hbody
      have hcb : isB64Char b = true := hb b (by simp)
      have hbody' : ∀ c ∈ body', isB64Char c = true := fun c hc => hb c (by simp [hc])
      have hshape : ([] : List Char) ++ (((b :: body') ++ pads) ++ post) =
          b :: (body' ++ (pads ++ post)) := by simp
      rw [hshape]
      have hy : (pads ++ post).takeWhile isB64Char = [] := by
        rcases hp with rfl | rfl | rfl
        · rcases hpost with rfl | ⟨d, ds, rfl, hd, hne⟩
          · rfl
          · exact List.takeWhile_cons_of_neg (by simp [hd])
        · exact List.takeWhile_cons_of_neg (by decide)
        · exact List.takeWhile_cons_of_neg (by decide)
      have htw : (body' ++ (pads ++ post)).takeWhile isB64Char = body' :=
        takeWhile_all_append hbody' hy
      have hdw : (body' ++ (pads ++ post)).dropWhile isB64Char = pads ++ post := by
        rw [dropWhile_all_append hbody']
        rcases hp with rfl | rfl | rfl
        · rcases hpost with rfl | ⟨d, ds, rfl, hd, hne⟩
          · rfl
          · exact List.dropWhile_cons_of_neg (by simp [hd])
        · exact List.dropWhile_cons_of_neg (by decide)
        · exact List.dropWhile_cons_of_neg (by decide)
      have h20 : 20 ≤ (b :: (body' ++ (pads ++ post)).takeWhile isB64Char).length := by
        rw [htw]
        simpa using hlen
      rw [b64RunsAux_cons_b64 fuel b _ hcb h20, htw, hdw]
      have hptw : ((pads ++ post).takeWhile (fun x => x = '=')).take 2 = pads := by
        rcases hp with rfl | rfl | rfl
        · rcases hpost with rfl | ⟨d, ds, rfl, hd, hne⟩
          · rfl
          · rw [List.nil_append, List.takeWhile_cons_of_neg (by simp [hne])]
            rfl
        · have hpostw : post.takeWhile (fun x => x = '=') = [] := by
            rcases hpost with rfl | ⟨d, ds, rfl, hd, hne⟩
            · rfl
            · exact List.takeWhile_cons_of_neg (by simp [hne])
          rw [List.cons_append, List.takeWhile_cons_of_pos (by decide), List.nil_append,
            hpostw]
          rfl
        · rw [List.cons_append, List.cons_append,
            List.takeWhile_cons_of_pos (by decide), List.takeWhile_cons_of_pos (by decide)]
          rfl
      rw [hptw]
      exact List.mem_cons_self _ _
    | cons c pre' =>
      have hshape : ((c :: pre') ++ (((body ++ pads)) ++ post)) =
          c :: (pre' ++ ((body ++ pads) ++ post)) := by simp
      rw [hshape]
      rw [hshape, List.length_cons] at hfuel
      have hfuel' : (pre' ++ ((body ++ pads) ++ post)).length ≤ fuel := by omega
      rcases hpre with h | ⟨d, hd, hdb⟩
      · exact absurd h (by simp)
      by_cases hc : isB64Char c = true
      · -- the preamble opens an alphabet run that ends inside the preamble
        have hpre' : pre' ≠ [] := by
          intro h
          subst h
          simp [List.getLast?] at hd
          subst hd
          rw [hc] at hdb
          cases hdb
        have hlast' : pre'.getLast? = some d := by
          rw [show c :: pre' = [c] ++ pre' from rfl, List.getLast?_append] at hd
          obtain ⟨x, hx⟩ := Option.isSome_iff_exists.mp (List.getLast?_isSome.mpr hpre')
          rw [hx] at hd ⊢
          simpa using hd
        have hdrne : pre'.dropWhile isB64Char ≠ [] := by
          intro h
          have hall : ∀ x ∈ pre', isB64Char x = true := List.dropWhile_eq_nil_iff.mp h
          obtain ⟨ys, hys⟩ := List.getLast?_eq_some_iff.mp hlast'
          have : isB64Char d = true := hall d (by simp [hys])
          rw [hdb] at this
          cases this
        have hdrlast : (pre'.dropWhile isB64Char).getLast? = some d := by
          have hsplit := List.takeWhile_append_dropWhile isB64Char pre'
          rw [← hsplit, List.getLast?_append] at hlast'
          obtain ⟨x, hx⟩ :=
            Option.isSome_iff_exists.mp (List.getLast?_isSome.mpr hdrne)
          rw [hx] at hlast' ⊢
          simpa using hlast'
        have hdrlen : (pre'.dropWhile isB64Char).length ≤ pre'.length :=
          (List.dropWhile_suffix isB64Char).length_le
        have htw : (pre' ++ ((body ++ pads) ++ post)).takeWhile isB64Char =
            pre'.takeWhile isB64Char := takeWhile_stop_append _ hdrne
        have hdw : (pre' ++ ((body ++ pads) ++ post)).dropWhile isB64Char =
            pre'.dropWhile isB64Char ++ ((body ++ pads) ++ post) :=
          dropWhile_stop_append _ hdrne
        have hEncHead : ((body ++ pads) ++ post).takeWhile (fun x => x = '=') = [] := by
          obtain ⟨b, body', hbody⟩ := List.exists_cons_of_ne_nil hbody_ne
          have hcb : isB64Char b = true := hb b (by simp [hbody])
          rw [hbody]
          exact List.takeWhile_cons_of_neg (by simp [b64Char_ne_eq hcb])
        by_cases h20 : 20 ≤ (c :: (pre' ++ ((body ++ pads) ++ post)).takeWhile
            isB64Char).length
        · rw [b64RunsAux_cons_b64 fuel c _ hc h20, htw, hdw]
          set dr := pre'.dropWhile isB64Char with hdr
          have htweq : (dr ++ ((body ++ pads) ++ post)).takeWhile (fun x => x = '=') =
              dr.takeWhile (fun x => x = '=') := by
            by_cases hstop : dr.dropWhile (fun x => x = '=') = []
            · have hall := List.dropWhile_eq_nil_iff.mp hstop
              rw [takeWhile_all_append hall hEncHead,
                List.takeWhile_eq_self_iff.mpr hall]
            · exact takeWhile_stop_append _ hstop
          have hlenle : ((dr.takeWhile (fun x => x = '=')).take 2).length ≤ dr.length := by
            have h1 : (dr.takeWhile (fun x => x = '=')).length ≤ dr.length :=
              takeWhile_length_le _ _
            rw [List.length_take]
            omega
          rw [htweq, List.drop_append_of_le_length hlenle]
          apply List.mem_cons_of_mem
          set n := ((dr.takeWhile (fun x => x = '=')).take 2).length with hn
          have hfuel2 : ((dr.drop n) ++ ((body ++ pads) ++ post)).length ≤ fuel := by
            rw [List.length_append] at hfuel' ⊢
            rw [List.length_drop]
            omega
          have hpre2 : dr.drop n = [] ∨
              ∃ e, (dr.drop n).getLast? = some e ∧ isB64Char e = false := by
            by_cases hnil : dr.drop n = []
            · exact Or.inl hnil
            · right
              refine ⟨d, ?_, hdb⟩
              have hsplit := List.take_append_drop n dr
              rw [← hsplit, List.getLast?_append] at hdrlast
              obtain ⟨x, hx⟩ :=
                Option.isSome_iff_exists.mp (List.getLast?_isSome.mpr hnil)
              rw [hx] at hdrlast ⊢
              simpa using hdrlast
          exact ih (dr.drop n) body pads post hfuel2 hb hlen hp hpre2 hpost
        · rw [b64RunsAux_cons_small fuel c _ hc h20, hdw]
          have hfuel2 : (pre'.dropWhile isB64Char ++ ((body ++ pads) ++ post)).length ≤
              fuel := by
            rw [List.length_append] at hfuel' ⊢
            omega
          exact ih (pre'.dropWhile isB64Char) body pads post hfuel2 hb hlen hp
            (Or.inr ⟨d, hdrlast, hdb⟩) hpost
      · rw [b64RunsAux_cons_skip fuel c _ (by simpa using hc)]
        have hpre2 : pre' = [] ∨
            ∃ e, pre'.getLast? = some e ∧ isB64Char e = false := by
          by_cases hn : pre' = []
          · exact Or.inl hn
          · right
            refine ⟨d, ?_, hdb⟩
            rw [show c :: pre' = [c] ++ pre' from rfl, List.getLast?_append] at hd
            obtain ⟨x, hx⟩ := Option.isSome_iff_exists.mp (List.getLast?_isSome.mpr hn)
            rw [hx] at hd ⊢
            simpa using hd
        exact ih pre' body pads post hfuel' hb hlen hp hpre2 hpost

/-- Claim C6: a target that does not contain the literal marker, on which the
homoglyph check fails, and which contains the poison marker base64-encoded as
a standalone run (at least 20 base64-alphabet characters plus optional `=`
padding, delimited by non-alphabet characters) whose best-effort decode
contains the marker, is detected as `(true, base64)`: the greedy scan finds
the run, the decode succeeds, and the decoded text contains the marker. -/
theorem detect_base64_standalone (um : UnicodeModel)
    (pre body pads post : List Char) (bytes : List Nat)
    (hb : ∀ c ∈ body, isB64Char c = true)
    (hlen : 20 ≤ body.length)
    (hp : pads = [] ∨ pads = ['='] ∨ pads = ['=', '='])
    (hpre : pre = [] ∨ ∃ d, pre.getLast? = some d ∧ isB64Char d = false)
    (hpost : post = [] ∨ ∃ d ds, post = d :: ds ∧ isB64Char d = false ∧ d ≠ '=')
    (hdec : b64decodePy (body ++ pads) = some bytes)
    (htok : isSub poisonTokenChars (utf8DecodeIgnore bytes) = true)
    (hplain : isSub poisonTokenChars (pre ++ ((body ++ pads) ++ post)) = false)
    (hhomo : (detectHomoglyphs um (pre ++ ((body ++ pads) ++ post))).fst = false) :
    detectObfuscatedToken um (pre ++ ((body ++ pads) ++ post)) =
      (true, some "base64") := by
  have hmem : (body ++ pads) ∈ b64Runs (pre ++ ((body ++ pads) ++ post)) :=
    b64RunsAux_mem _ pre body pads post le_rfl hb hlen hp hpre hpost
  have hbase : detectBase64 (pre ++ ((body ++ pads) ++ post)) =
      (true, some "base64") := by
    unfold detectBase64
    rw [if_pos]
    exact List.any_eq_true.mpr
      ⟨body ++ pads, hmem, by unfold b64RunHasToken; rw [hdec]; exact htok⟩
  simp only [detectObfuscatedToken, hplain, hhomo, hbase, Bool.false_eq_true,
    if_false, if_true]

/-- Witness for `detect_base64_standalone`: a target carrying the marker as a
standalone base64 blob. -/
theorem detect_base64_standalone_witness :
    b64decodePy ("V1JJVEVfUFdORURfRklMRQ".data ++ "==".data) =
      some [87, 82, 73, 84, 69, 95, 80, 87, 78, 69, 68, 95, 70, 73, 76, 69] ∧
    detectObfuscatedToken asciiUM
      ("payload: ".data ++ (("V1JJVEVfUFdORURfRklMRQ".data ++ "==".data) ++
        " ok".data)) = (true, some "base64") := by
  constructor
  · decide
  · exact detect_base64_standalone asciiUM "payload: ".data
      "V1JJVEVfUFdORURfRklMRQ".data "==".data " ok".data
      [87, 82, 73, 84, 69, 95, 80, 87, 78, 69, 68, 95, 70, 73, 76, 69]
      (by decide) (by decide) (by decide)
      (Or.inr ⟨' ', by decide, by decide⟩)
      (Or.inr ⟨' ', "ok".data, by decide, by decide, by decide⟩)
      (by decide) (by decide) (by decide) (by decide)

/-- A `LIKE` pattern consisting of a single `%` matches everything. -/
theorem likeMatchAux_pct (fuel : Nat) :
    ∀ s : List Char, s.length < fuel → likeMatchAux fuel ['%'] s = true := by
  induction fuel with
  | zero =>
    intro s h
    omega
  | succ fuel ih =>
    intro s h
    cases s with
    | nil => simp [likeMatchAux]
    | cons c ts =>
      have : likeMatchAux fuel ['%'] ts = true := ih ts (by simp at h; omega)
      simp [likeMatchAux, this]

/-- A wildcard-free pattern followed by `%` matches exactly the case-folded
prefixes. -/
theorem likeMatchAux_append_pct (fuel : Nat) :
    ∀ (t s : List Char), (∀ c ∈ t, c ≠ '%' ∧ c ≠ '_') →
    t.length + s.length < fuel →
    likeMatchAux fuel (t ++ ['%']) s =
      (t.map Char.toLower).isPrefixOf (s.map Char.toLower) := by
  induction fuel with
  | zero =>
    intro t s hw h
    omega
  | succ fuel ih =>
    intro t s hw h
    cases t with
    | nil =>
      simp only [List.nil_append, List.map_nil]
      rw [likeMatchAux_pct (fuel + 1) s (by simpa using h)]
      simp [List.isPrefixOf]
    | cons p t' =>
      have hp := hw p (by simp)
      cases s with
      | nil =>
        simp [likeMatchAux, hp.1, List.isPrefixOf]
      | cons c ts =>
        have hw' : ∀ x ∈ t', x ≠ '%' ∧ x ≠ '_' := fun x hx => hw x (by simp [hx])
        have hrec := ih t' ts hw' (by simp at h; omega)
        simp [likeMatchAux, hp.1, hp.2, hrec, List.isPrefixOf]

/-- A pattern `%t%` with wildcard-free `t` matches exactly the strings with
`t` as a case-folded substring. -/
theorem likeMatchAux_lead_pct (fuel : Nat) :
    ∀ (t s : List Char), (∀ c ∈ t, c ≠ '%' ∧ c ≠ '_') →
    t.length + s.length + 2 ≤ fuel →
    likeMatchAux fuel ('%' :: (t ++ ['%'])) s =
      isSub (t.map Char.toLower) (s.map Char.toLower) := by
  induction fuel with
  | zero =>
    intro t s hw h
    omega
  | succ fuel ih =>
    intro t s hw h
    cases s with
    | nil =>
      have hpref := likeMatchAux_append_pct fuel t [] hw (by simp; omega)
      simp [likeMatchAux, hpref, isSub]
    | cons c ts =>
      have hpref := likeMatchAux_append_pct fuel t (c :: ts) hw (by simp at h ⊢; omega)
      have hrec := ih t ts hw (by simp at h ⊢; omega)
      simp [likeMatchAux, hpref, hrec, isSub]

/-- SQLite `content LIKE '%' || t || '%'` with a wildcard-free topic `t` is the
case-insensitive substring test. -/
theorem likeMatch_isSub (t s : List Char) (hw : ∀ c ∈ t, c ≠ '%' ∧ c ≠ '_') :
    likeMatch ('%' :: (t ++ ['%'])) s =
      isSub (t.map Char.toLower) (s.map Char.toLower) := by
  unfold likeMatch
  apply likeMatchAux_lead_pct _ t s hw
  simp [List.length_append]
  omega

/-- Claim C8 counterexample: on the same single-record write history, the
topic `runbook d` (which spans a tag boundary) matches the space-joined
JSONL tag text `runbook diagnostics` but not the SQLite
JSON-serialized tag column, so the two backends return different results. -/
theorem query_notes_backend_cex :
    sqliteQueryNotes
      [{ id := 1, content := "alpha note".data, tags := ["runbook", "diagnostics"],
         trust_level := "trusted", provenance := "web_fixture:poisoned_runbook.md",
         risk_flags := [], created_at := "t0" }] "runbook d".data 3 ≠
    jsonlQueryNotes
      [{ id := 1, content := "alpha note".data, tags := ["runbook", "diagnostics"],
         trust_level := "trusted", provenance := "web_fixture:poisoned_runbook.md",
         risk_flags := [], created_at := "t0" }] "runbook d".data 3 := by
  decide

/-- Claim C8 (amended): the two backends agree on identical write histories
for every limit and every ASCII, wildcard-free topic that does not touch the
tag serializations (which differ: SQLite matches the JSON-dumped tag list,
JSONL the space-joined tags): the result is the notes whose content contains
the topic case-insensitively, most recent first, truncated to the limit. -/
theorem query_notes_backend_agree (table : List MemRec) (topic : List Char)
    (k : Nat)
    (hw : ∀ c ∈ topic, c ≠ '%' ∧ c ≠ '_')
    (ha : ∀ c ∈ topic, c.toNat < 128)
    (hrec : ∀ r ∈ table, (∀ c ∈ r.content, c.toNat < 128) ∧
        (∀ tg ∈ r.tags, ∀ c ∈ tg.data, c.toNat < 128))
    (htags : ∀ r ∈ table,
        likeMatch ('%' :: (topic ++ ['%'])) (jsonDumpsStrList r.tags) = false ∧
        isSub (topic.map Char.toLower) ((joinSpaceTags r.tags).map Char.toLower) =
          false) :
    sqliteQueryNotes table topic k = jsonlQueryNotes table topic k := by
  unfold sqliteQueryNotes jsonlQueryNotes
  by_cases h0 : topic.isEmpty
  · rw [if_pos h0, if_pos h0]
  · rw [if_neg h0, if_neg h0]
    dsimp only
    have hfilter : table.filter (fun r =>
        likeMatch ('%' :: (topic ++ ['%'])) r.content ||
        likeMatch ('%' :: (topic ++ ['%'])) (jsonDumpsStrList r.tags)) =
      table.filter (fun r =>
        isSub (topic.map Char.toLower) (r.content.map Char.toLower) ||
        isSub (topic.map Char.toLower) ((joinSpaceTags r.tags).map Char.toLower)) := by
      apply List.filter_congr
      intro r hr
      rw [likeMatch_isSub topic r.content hw, (htags r hr).1, (htags r hr).2]
    rw [hfilter]

/-- Witness for `query_notes_backend_agree` at a concrete history and
topic. -/
theorem query_notes_backend_agree_witness :
    (∀ c ∈ "alpha".data, c ≠ '%' ∧ c ≠ '_') ∧
    sqliteQueryNotes
      [{ id := 1, content := "alpha note".data, tags := ["runbook", "diagnostics"],
         trust_level := "trusted", provenance := "web_fixture:poisoned_runbook.md",
         risk_flags := [], created_at := "t0" }] "alpha".data 3 =
    jsonlQueryNotes
      [{ id := 1, content := "alpha note".data, tags := ["runbook", "diagnostics"],
         trust_level := "trusted", provenance := "web_fixture:poisoned_runbook.md",
         risk_flags := [], created_at := "t0" }] "alpha".data 3 :=
  ⟨by decide,
   query_notes_backend_agree
     [{ id := 1, content := "alpha note".data, tags := ["runbook", "diagnostics"],
        trust_level := "trusted", provenance := "web_fixture:poisoned_runbook.md",
        risk_flags := [], created_at := "t0" }] "alpha".data 3
     (by decide) (by decide) (by decide) (by decide)⟩
